import Mathlib

/-!
Verification development for the arithmatrix repository.

Shallow embedding of the puzzle data model and the client-side game logic:
cage constraint validation and win checking (`src/utils`, `part_008`),
the puzzle loaders (`src/hooks/usePuzzleData.ts` and the older
`difficulty_operations`-filtering revision, `part_013`), the undo/redo
state machine (`src/hooks/useArithmatrixGame.ts`), and pencil-mark
persistence (`part_009`).

JavaScript numbers occurring here are integers throughout, embedded as
`Int`; JS `%` on integers is truncated remainder, embedded as `Int.tmod`,
and exact JS division of integers is embedded as `Int.tdiv`.  JS strings
are embedded as Lean `String` (pencil marks, where splitting is analysed
character by character, use `List Char`).  JS `Set` values are embedded as
insertion-ordered lists of their (distinct) elements.
-/

namespace Arithmatrix

/-- A cage from `KenkenTypes` / `ArithmatrixTypes`: target `value`,
`operation` string and the member cell indices (`row*size+col`). -/

structure Cage where
  value : Int
  operation : String
  cells : List Nat
deriving DecidableEq, Repr, Inhabited

/-- The solver-facing puzzle definition: grid size and cage list. -/

structure PuzzleDefinition where
  size : Nat
  cages : List Cage
deriving DecidableEq, Repr, Inhabited

/-! ### JS `parseInt(s, 10)` -/

/-- Whitespace skipped by JS `parseInt` before the number. -/

def isJsSpace (c : Char) : Bool :=
  c = ' ' || c = '\t' || c = '\n' || c = '\r'

/-- Value of a decimal digit string read most-significant first. -/

def digitsToNat (ds : List Char) : Nat :=
  ds.foldl (fun acc c => 10 * acc + (c.toNat - '0'.toNat)) 0

/-- The longest decimal-digit prefix, or `none` when there is no digit:
`parseInt` returns `NaN` exactly when no digit can be consumed. -/

def parseDigits (cs : List Char) : Option Nat :=
  let ds := cs.takeWhile Char.isDigit
  if ds.isEmpty then none else some (digitsToNat ds)

/-- JS `parseInt(s, 10)`: skip whitespace, optional sign, then the longest
digit prefix (trailing garbage ignored); `none` models `NaN`. -/

def jsParseInt (s : String) : Option Int :=
  match s.toList.dropWhile isJsSpace with
  | '-' :: rest => (parseDigits rest).map (fun n => -(n : Int))
  | '+' :: rest => (parseDigits rest).map (fun n => (n : Int))
  | rest => (parseDigits rest).map (fun n => (n : Int))

/-! ### `validateCageConstraint` (`part_008`, lines 340–374) -/

/-- `validateCageConstraint(cage, cageValues)`: computes `result` per the
operation switch and compares it with `cage.value`.  `-` and `/` require
exactly two values; `/` additionally requires a nonzero smaller value and
an exact quotient (JS `maxVal % minVal !== 0` is truncated remainder);
`=` and `""` require exactly one value; unknown operations fail. -/

def validateCageConstraint (cage : Cage) (cageValues : List Int) : Bool :=
  match cage.operation with
  | "+" => cageValues.foldl (fun sum val => sum + val) 0 == cage.value
  | "*" => cageValues.foldl (fun prod val => prod * val) 1 == cage.value
  | "-" =>
    match cageValues with
    | [a, b] => |a - b| == cage.value
    | _ => false
  | "/" =>
    match cageValues with
    | [a, b] =>
      let maxVal := max a b
      let minVal := min a b
      if minVal == 0 || maxVal.tmod minVal != 0 then false
      else maxVal.tdiv minVal == cage.value
    | _ => false
  | "=" =>
    match cageValues with
    | [a] => a == cage.value
    | _ => false
  | "" =>
    match cageValues with
    | [a] => a == cage.value
    | _ => false
  | _ => false

/-! ### `checkWinCondition` (`part_008`, lines 265–331) -/

/-- One cell of `checkWinCondition`'s first pass: empty cells fail, then
`parseInt` must yield a number in `1..size`. -/

def parseCell (s : String) (size : Nat) : Option Int :=
  if s == "" then none
  else
    match jsParseInt s with
    | none => none
    | some n => if n < 1 ∨ n > (size : Int) then none else some n

/-- The first pass of `checkWinCondition`: build `numberGrid` by parsing
every cell with `r, c < size` (missing cells behave like invalid ones),
failing as the loop does on the first bad cell. -/

def parseGrid (g : List (List String)) (size : Nat) :
    Option (List (List Int)) :=
  (List.range size).mapM (fun r =>
    (List.range size).mapM (fun c => parseCell ((g.getD r []).getD c "") size))

/-- `numberGrid[r][c]` access. -/

def entry (ng : List (List Int)) (r c : Nat) : Int :=
  (ng.getD r []).getD c 0

/-- The values `numberGrid[i][j]`, `j < size`, added to `rowSet`. -/

def rowVals (ng : List (List Int)) (size i : Nat) : List Int :=
  (List.range size).map (fun j => entry ng i j)

/-- The values `numberGrid[j][i]`, `j < size`, added to `colSet`. -/

def colVals (ng : List (List Int)) (size i : Nat) : List Int :=
  (List.range size).map (fun j => entry ng j i)

/-- `Set.size` of the JS set collecting a list of numbers. -/

def jsSetSize (l : List Int) : Nat :=
  l.dedup.length

/-- The cage's values: `numberGrid[⌊cellIndex/size⌋][cellIndex % size]`. -/

def cageValues (cage : Cage) (ng : List (List Int)) (size : Nat) :
    List Int :=
  cage.cells.map (fun cellIndex => entry ng (cellIndex / size) (cellIndex % size))

/-- `checkWinCondition(gridValues, puzzleDefinition)`: all cells parse to
numbers in `1..size`; every row set and column set has `size` elements;
every cage constraint validates. -/

def checkWinCondition (gridValues : List (List String))
    (pd : PuzzleDefinition) : Bool :=
  match parseGrid gridValues pd.size with
  | none => false
  | some numberGrid =>
    (List.range pd.size).all (fun i =>
      jsSetSize (rowVals numberGrid pd.size i) == pd.size &&
      jsSetSize (colVals numberGrid pd.size i) == pd.size) &&
    pd.cages.all (fun cage =>
      validateCageConstraint cage (cageValues cage numberGrid pd.size))

/-! ### Puzzle corpus records and the client loaders -/

/-- One parsed corpus record as assembled by `usePuzzleData`:
`difficulty` is `metadata.actual_difficulty`, `difficulty_operations` is
the optional score field (`undefined` modelled as `none`). -/

structure PuzzleData where
  size : Nat
  cages : List Cage
  solution : List (List Int)
  difficulty : String
  difficulty_operations : Option Int
deriving DecidableEq, Repr, Inhabited

/-- `Math.floor(Math.random() * n)` with the random draw `r ∈ [0, 1)`
passed explicitly. -/

def selectIndex (r : ℚ) (n : Nat) : Nat :=
  (⌊r * n⌋).toNat

/-- The filter of the current loader (`src/hooks/usePuzzleData.ts`):
match on `size` and on `metadata.actual_difficulty`. -/

def filteredPuzzles (puzzles : List PuzzleData) (puzzleSize : Nat)
    (difficulty : String) : List PuzzleData :=
  puzzles.filter (fun puzzle =>
    puzzle.size == puzzleSize && puzzle.difficulty == difficulty)

/-- The current loader: filter, throw (caught as an error outcome) when
nothing matches, otherwise select at the random index. -/

def loadPuzzle (puzzles : List PuzzleData) (puzzleSize : Nat)
    (difficulty : String) (r : ℚ) : Except String PuzzleData :=
  let fp := filteredPuzzles puzzles puzzleSize difficulty
  if fp.length = 0 then
    Except.error ("No puzzles found for size " ++ toString puzzleSize ++
      " and difficulty " ++ difficulty)
  else
    Except.ok (fp.getD (selectIndex r fp.length) default)

/-! ### The `difficulty_operations`-filtering loader (`part_013`) -/

/-- The per-size `difficultyBounds` table of `part_013` (identical to
`DIFFICULTY_BOUNDS` in `gameConstants.ts`). -/

def sizeBoundsList (size : Nat) : Option (List (String × (Int × Int))) :=
  match size with
  | 4 => some [("easiest", (10, 16)), ("easy", (16, 18)), ("medium", (18, 20)),
               ("hard", (20, 22)), ("expert", (22, 29))]
  | 5 => some [("easiest", (16, 24)), ("easy", (24, 26)), ("medium", (26, 28)),
               ("hard", (28, 30)), ("expert", (30, 40))]
  | 6 => some [("easiest", (28, 35)), ("easy", (35, 37)), ("medium", (37, 39)),
               ("hard", (39, 42)), ("expert", (42, 55))]
  | 7 => some [("easiest", (38, 47)), ("easy", (47, 49)), ("medium", (49, 52)),
               ("hard", (52, 55)), ("expert", (55, 65))]
  | _ => none

/-- `getDifficultyBounds(size, difficulty)`: unknown sizes fall back to the
size-7 `medium` bounds, unknown difficulties to the size's `medium`. -/

def getDifficultyBounds (size : Nat) (difficulty : String) : Int × Int :=
  match sizeBoundsList size with
  | none => (((sizeBoundsList 7).getD []).lookup "medium").getD (49, 52)
  | some sizeBounds =>
    match sizeBounds.lookup difficulty with
    | some b => b
    | none => (sizeBounds.lookup "medium").getD (49, 52)

/-- The score test of `part_013`'s filter:
`difficulty_operations >= minOps && difficulty_operations <= maxOps`. -/

def scoreAccepted (size : Nat) (difficulty : String) (d : Int) : Bool :=
  let bounds := getDifficultyBounds size difficulty
  bounds.1 ≤ d && d ≤ bounds.2

/-- The full filter predicate of `part_013`: matching size, a present
`difficulty_operations`, and a score inside the band's bounds. -/

def opsMatches (puzzleSize : Nat) (difficulty : String)
    (puzzle : PuzzleData) : Bool :=
  puzzle.size == puzzleSize &&
    match puzzle.difficulty_operations with
    | some d => scoreAccepted puzzleSize difficulty d
    | none => false

/-- The matching set of `part_013`'s loader. -/

def opsFilteredPuzzles (puzzles : List PuzzleData) (puzzleSize : Nat)
    (difficulty : String) : List PuzzleData :=
  puzzles.filter (opsMatches puzzleSize difficulty)

/-- `part_013`'s loader: like `loadPuzzle` but with the
`difficulty_operations` band filter. -/

def loadPuzzleOps (puzzles : List PuzzleData) (puzzleSize : Nat)
    (difficulty : String) (r : ℚ) : Except String PuzzleData :=
  let fp := opsFilteredPuzzles puzzles puzzleSize difficulty
  if fp.length = 0 then
    Except.error ("No puzzles found for size " ++ toString puzzleSize ++
      " and difficulty " ++ difficulty)
  else
    Except.ok (fp.getD (selectIndex r fp.length) default)

/-! ### C4: band acceptance ranges -/

/-- The five band labels in increasing order of difficulty. -/

def bandNames : List String :=
  ["easiest", "easy", "medium", "hard", "expert"]

/-! ### Game state and undo/redo (`useArithmatrixGame.ts`) -/

/-- The pieces of the hook's state that input, undo and redo touch.  A
history entry is the pair `[gridValues, pencilMarks]` pushed before an
edit; pencil-mark sets are insertion-ordered lists. -/

structure GameState where
  gridValues : List (List String)
  pencilMarks : List (List (List String))
  history : List (List (List String) × List (List (List String)))
  redoStack : List (List (List String) × List (List (List String)))
deriving DecidableEq, Repr, Inhabited

/-- `handleUndo`: with empty history do nothing; otherwise push the
current pair onto the redo stack, restore the last history entry and drop
it (`history.slice(0, -1)`). -/

def handleUndo (s : GameState) : GameState :=
  match s.history.getLast? with
  | none => s
  | some prev =>
    { gridValues := prev.1
      pencilMarks := prev.2
      history := s.history.dropLast
      redoStack := s.redoStack ++ [(s.gridValues, s.pencilMarks)] }

/-- `handleRedo`: with empty redo stack do nothing; otherwise push the
current pair onto history, restore the last redo entry and drop it. -/

def handleRedo (s : GameState) : GameState :=
  match s.redoStack.getLast? with
  | none => s
  | some next =>
    { gridValues := next.1
      pencilMarks := next.2
      history := s.history ++ [(s.gridValues, s.pencilMarks)]
      redoStack := s.redoStack.dropLast }

/-- The validity test of `handleInputChange`:
`value === '' || (!isNaN(num) && num >= 1 && num <= size)`. -/

def validGridEntry (size : Nat) (value : String) : Bool :=
  value == "" ||
    match jsParseInt value with
    | some num => decide (1 ≤ num) && decide (num ≤ (size : Int))
    | none => false

/-- `newGridValues`: replace the `(rowIndex, colIndex)` cell. -/

def updatedGridValues (g : List (List String)) (rowIndex colIndex : Nat)
    (value : String) : List (List String) :=
  g.mapIdx (fun rIdx row =>
    row.mapIdx (fun cIdx cell =>
      if rIdx == rowIndex && cIdx == colIndex then value else cell))

/-- `newPencilMarks`: clear the edited cell's marks and, for a non-empty
value, delete that value from every set in the same row or column. -/

def updatedPencilMarks (pm : List (List (List String)))
    (rowIndex colIndex : Nat) (value : String) :
    List (List (List String)) :=
  pm.mapIdx (fun rIdx row =>
    row.mapIdx (fun cIdx cellSet =>
      if rIdx == rowIndex && cIdx == colIndex then []
      else if value != "" && (rIdx == rowIndex || cIdx == colIndex) then
        cellSet.filter (fun mark => mark != value)
      else cellSet))

/-- `handleInputChange`: when the value differs from the current cell and
is empty or a number in `1..size`, push the current pair onto history,
clear the redo stack and apply the edit; otherwise leave the state
unchanged (the code only reverts the DOM input). -/

def handleInputChange (size : Nat) (s : GameState)
    (rowIndex colIndex : Nat) (value : String) : GameState :=
  let currentVal := (s.gridValues.getD rowIndex []).getD colIndex ""
  if value != currentVal && validGridEntry size value then
    { gridValues := updatedGridValues s.gridValues rowIndex colIndex value
      pencilMarks := updatedPencilMarks s.pencilMarks rowIndex colIndex value
      history := s.history ++ [(s.gridValues, s.pencilMarks)]
      redoStack := [] }
  else s

/-! ### Pencil-mark persistence (`part_009`) -/

/-- `Array.from(cellSet).join(',')`: the cell's marks (strings as
character lists) joined by single commas. -/

def joinMarks : List (List Char) → List Char
  | [] => []
  | [s] => s
  | s :: rest => s ++ ',' :: joinMarks rest

/-- `saveGameState`'s pencil-mark serialization: every cell's set becomes
one comma-joined string. -/

def serializePencilMarks (pm : List (List (List (List Char)))) :
    List (List (List Char)) :=
  pm.map (fun row => row.map joinMarks)

/-- JS `split(',')` on a character string. -/

def splitOnComma : List Char → List (List Char)
  | [] => [[]]
  | c :: rest =>
    if c = ',' then [] :: splitOnComma rest
    else
      match splitOnComma rest with
      | [] => [[c]]
      | s :: ss => (c :: s) :: ss

/-- One cell of `deserializePencilMarks`: the empty string is the empty
set, otherwise split on commas and drop empty marks. -/

def deserializeCell (cellString : List Char) : List (List Char) :=
  if cellString = [] then []
  else (splitOnComma cellString).filter (fun mark => mark ≠ [])

/-- `deserializePencilMarks(serializedPencilMarks)`. -/

def deserializePencilMarks (spm : List (List (List Char))) :
    List (List (List (List Char))) :=
  spm.map (fun row => row.map deserializeCell)

/-! ### Toward C1: decomposing `parseGrid` and the Latin-square checks -/

/-- The target value list `1..size` of the Latin-square rule. -/

def oneToN (size : Nat) : List Int :=
  (List.range size).map (fun k => Int.ofNat k + 1)

/-! ### Characterizations of the cage-constraint branches -/

/-- The `/` branch on a two-value list, characterized by divisibility. -/

lemma validate_div_pair (t : Int) (op : String) (cells : List Nat)
    (hop : op = "/") (a b : Int) :
    validateCageConstraint ⟨t, op, cells⟩ [a, b] = true ↔
      min a b ≠ 0 ∧ min a b ∣ max a b ∧ max a b / min a b = t := by
  subst hop
  show (if (min a b == 0 || (max a b).tmod (min a b) != 0) then false
        else ((max a b).tdiv (min a b) == t)) = true ↔ _
  by_cases hmin : min a b = 0
  · simp [hmin]
  · by_cases hmod : (max a b).tmod (min a b) = 0
    · have hdvd : min a b ∣ max a b := Int.dvd_of_tmod_eq_zero hmod
      have htdiv : (max a b).tdiv (min a b) = max a b / min a b :=
        Int.tdiv_eq_ediv_of_dvd hdvd
      simp [hmin, hmod, htdiv, hdvd]
    · have hnd : ¬ min a b ∣ max a b := fun hd => hmod (Int.tmod_eq_zero_of_dvd hd)
      simp [hmin, hmod, hnd]

/-- The `-` branch on a two-value list is the absolute difference. -/

lemma validate_sub_pair (t : Int) (op : String) (cells : List Nat)
    (hop : op = "-") (a b : Int) :
    validateCageConstraint ⟨t, op, cells⟩ [a, b] = true ↔ |a - b| = t := by
  subst hop
  show (|a - b| == t) = true ↔ _
  simp

/-- `-` and `/` cages reject any list whose length is not two. -/

lemma validate_sub_div_length (cage : Cage)
    (hop : cage.operation = "-" ∨ cage.operation = "/")
    (cageValues : List Int) (hlen : cageValues.length ≠ 2) :
    validateCageConstraint cage cageValues = false := by
  obtain ⟨t, op, cells⟩ := cage
  rcases cageValues with _ | ⟨a, _ | ⟨b, _ | ⟨c, rest⟩⟩⟩
  · rcases hop with h | h <;> simp_all [validateCageConstraint]
  · rcases hop with h | h <;> simp_all [validateCageConstraint]
  · exact absurd rfl hlen
  · rcases hop with h | h <;> simp_all [validateCageConstraint]

/-- The `=` branch on a one-value list compares with the target. -/

lemma validate_eq_single (t : Int) (op : String) (cells : List Nat)
    (hop : op = "=") (a : Int) :
    validateCageConstraint ⟨t, op, cells⟩ [a] = true ↔ a = t := by
  subst hop
  show (a == t) = true ↔ _
  simp

/-- `=` cages reject any list whose length is not one. -/

lemma validate_eq_length (cage : Cage) (hop : cage.operation = "=")
    (cageValues : List Int) (hlen : cageValues.length ≠ 1) :
    validateCageConstraint cage cageValues = false := by
  obtain ⟨t, op, cells⟩ := cage
  rcases cageValues with _ | ⟨a, _ | ⟨b, rest⟩⟩
  · simp_all [validateCageConstraint]
  · exact absurd rfl hlen
  · simp_all [validateCageConstraint]

/-- C2: a `/` cage validates exactly two values whose smaller member is
nonzero, divides the larger exactly, and whose integer quotient is the
target; in particular values `{2, 4}` validate exactly for target 2. -/

theorem validateCageConstraint_div_iff (cage : Cage)
    (hop : cage.operation = "/") :
    (∀ cageValues : List Int,
      validateCageConstraint cage cageValues = true ↔
        ∃ a b : Int, cageValues = [a, b] ∧ min a b ≠ 0 ∧
          min a b ∣ max a b ∧ max a b / min a b = cage.value) ∧
    (∀ t : Int, ∀ cells : List Nat,
      validateCageConstraint ⟨t, "/", cells⟩ [2, 4] = true ↔ t = 2) := by
  constructor
  · intro cageValues
    constructor
    · intro hval
      rcases cageValues with _ | ⟨a, _ | ⟨b, _ | ⟨c, rest⟩⟩⟩
      · rw [validate_sub_div_length cage (Or.inr hop) [] (by simp)] at hval
        exact absurd hval (by simp)
      · rw [validate_sub_div_length cage (Or.inr hop) [a] (by simp)] at hval
        exact absurd hval (by simp)
      · obtain ⟨t, op, cells⟩ := cage
        refine ⟨a, b, rfl, ?_⟩
        exact (validate_div_pair t op cells hop a b).mp hval
      · rw [validate_sub_div_length cage (Or.inr hop)
          (a :: b :: c :: rest) (by simp)] at hval
        exact absurd hval (by simp)
    · rintro ⟨a, b, rfl, hmin, hdvd, hq⟩
      obtain ⟨t, op, cells⟩ := cage
      exact (validate_div_pair t op cells hop a b).mpr ⟨hmin, hdvd, hq⟩
  · intro t cells
    rw [validate_div_pair t "/" cells rfl 2 4]
    constructor
    · rintro ⟨-, -, hq⟩
      simpa using hq.symm
    · rintro rfl
      refine ⟨by norm_num, by norm_num, by norm_num⟩

/-- C7: a `-` cage validates exactly two values whose absolute difference
is the target; consequently `-` and `/` cages never validate three or
more values. -/

theorem validateCageConstraint_sub_iff (cage : Cage)
    (hop : cage.operation = "-") :
    (∀ cageValues : List Int,
      validateCageConstraint cage cageValues = true ↔
        ∃ a b : Int, cageValues = [a, b] ∧ |a - b| = cage.value) ∧
    (∀ cage2 : Cage, cage2.operation = "-" ∨ cage2.operation = "/" →
      ∀ cageValues : List Int, 3 ≤ cageValues.length →
        validateCageConstraint cage2 cageValues = false) := by
  constructor
  · intro cageValues
    constructor
    · intro hval
      rcases cageValues with _ | ⟨a, _ | ⟨b, _ | ⟨c, rest⟩⟩⟩
      · rw [validate_sub_div_length cage (Or.inl hop) [] (by simp)] at hval
        exact absurd hval (by simp)
      · rw [validate_sub_div_length cage (Or.inl hop) [a] (by simp)] at hval
        exact absurd hval (by simp)
      · obtain ⟨t, op, cells⟩ := cage
        exact ⟨a, b, rfl, (validate_sub_pair t op cells hop a b).mp hval⟩
      · rw [validate_sub_div_length cage (Or.inl hop)
          (a :: b :: c :: rest) (by simp)] at hval
        exact absurd hval (by simp)
    · rintro ⟨a, b, rfl, habs⟩
      obtain ⟨t, op, cells⟩ := cage
      exact (validate_sub_pair t op cells hop a b).mpr habs
  · intro cage2 hop2 cageValues hlen
    exact validate_sub_div_length cage2 hop2 cageValues (by omega)

/-- C8: an `=` cage validates exactly one value equal to the target; in
particular the single-cell cage at index 0 with target 1 validates
against the example 4×4 solution, whose value there is 1. -/

theorem validateCageConstraint_eq_iff (cage : Cage)
    (hop : cage.operation = "=") :
    (∀ cageValues : List Int,
      validateCageConstraint cage cageValues = true ↔
        ∃ a : Int, cageValues = [a] ∧ a = cage.value) ∧
    cageValues ⟨1, "=", [0]⟩
      [[1, 2, 3, 4], [2, 3, 4, 1], [3, 4, 1, 2], [4, 1, 2, 3]] 4 = [1] ∧
    validateCageConstraint ⟨1, "=", [0]⟩
      (cageValues ⟨1, "=", [0]⟩
        [[1, 2, 3, 4], [2, 3, 4, 1], [3, 4, 1, 2], [4, 1, 2, 3]] 4) = true := by
  refine ⟨?_, by decide, by decide⟩
  intro cageValues
  constructor
  · intro hval
    rcases cageValues with _ | ⟨a, _ | ⟨b, rest⟩⟩
    · rw [validate_eq_length cage hop [] (by simp)] at hval
      exact absurd hval (by simp)
    · obtain ⟨t, op, cells⟩ := cage
      exact ⟨a, rfl, (validate_eq_single t op cells hop a).mp hval⟩
    · rw [validate_eq_length cage hop (a :: b :: rest) (by simp)] at hval
      exact absurd hval (by simp)
  · rintro ⟨a, rfl, ha⟩
    obtain ⟨t, op, cells⟩ := cage
    exact (validate_eq_single t op cells hop a).mpr ha

/-- Witness for C2 at values `[2, 4]`, target 2. -/

theorem validateCageConstraint_div_iff_witness :
    validateCageConstraint ⟨2, "/", [0, 1]⟩ [2, 4] = true :=
  ((validateCageConstraint_div_iff ⟨2, "/", [0, 1]⟩ rfl).2 2 [0, 1]).mpr rfl

/-- Witness for C7 at values `[5, 2]`, target 3, and a 3-cell rejection. -/

theorem validateCageConstraint_sub_iff_witness :
    validateCageConstraint ⟨3, "-", [0, 1]⟩ [5, 2] = true ∧
    validateCageConstraint ⟨6, "-", [0, 1, 2]⟩ [1, 2, 3] = false :=
  ⟨((validateCageConstraint_sub_iff ⟨3, "-", [0, 1]⟩ rfl).1 [5, 2]).mpr
      ⟨5, 2, rfl, by decide⟩,
   (validateCageConstraint_sub_iff ⟨3, "-", [0, 1]⟩ rfl).2
      ⟨6, "-", [0, 1, 2]⟩ (Or.inl rfl) [1, 2, 3] (by decide)⟩

/-- Witness for C8 at the single value `[1]`, target 1. -/

theorem validateCageConstraint_eq_iff_witness :
    validateCageConstraint ⟨1, "=", [0]⟩ [1] = true :=
  ((validateCageConstraint_eq_iff ⟨1, "=", [0]⟩ rfl).1 [1]).mpr ⟨1, rfl, rfl⟩

/-! ### Random index facts -/

/-- For `r ∈ [0, 1)` and a nonempty list, the selected index is in bounds. -/

lemma selectIndex_lt (r : ℚ) (n : Nat) (h1 : r < 1)
    (hn : 0 < n) : selectIndex r n < n := by
  unfold selectIndex
  have hnq : (0 : ℚ) < (n : ℚ) := by exact_mod_cast hn
  have hub : ⌊r * (n : ℚ)⌋ < (n : Int) := by
    rw [Int.floor_lt]
    calc r * (n : ℚ) < 1 * (n : ℚ) := by
          exact mul_lt_mul_of_pos_right h1 hnq
      _ = (n : ℚ) := one_mul _
  omega

/-- Every index below the length is selected by some draw in `[0, 1)`. -/

lemma selectIndex_surjective (n i : Nat) (hi : i < n) :
    ∃ r : ℚ, 0 ≤ r ∧ r < 1 ∧ selectIndex r n = i := by
  have hn : 0 < n := Nat.pos_of_ne_zero (by omega)
  have hnq : (0 : ℚ) < (n : ℚ) := by exact_mod_cast hn
  refine ⟨(i : ℚ) / (n : ℚ), by positivity, ?_, ?_⟩
  · rw [div_lt_one hnq]
    exact_mod_cast hi
  · unfold selectIndex
    have hne : (n : ℚ) ≠ 0 := ne_of_gt hnq
    rw [div_mul_cancel₀ _ hne]
    simp

/-! ### C5 / C6: behaviour of the current loader -/

/-- C6: an `ok` outcome of the loader is a member of the filtered set and
matches the requested size and difficulty; the random index is within the
filtered set's bounds, and every filtered puzzle is selected by some draw. -/

theorem loadPuzzle_matches (puzzles : List PuzzleData) (puzzleSize : Nat)
    (difficulty : String) (r : ℚ) (_h0 : 0 ≤ r) (h1 : r < 1) :
    (∀ p : PuzzleData,
      loadPuzzle puzzles puzzleSize difficulty r = Except.ok p →
        p ∈ filteredPuzzles puzzles puzzleSize difficulty ∧
        p.size = puzzleSize ∧ p.difficulty = difficulty ∧
        selectIndex r (filteredPuzzles puzzles puzzleSize difficulty).length <
          (filteredPuzzles puzzles puzzleSize difficulty).length) ∧
    (∀ i, i < (filteredPuzzles puzzles puzzleSize difficulty).length →
      ∃ r2 : ℚ, 0 ≤ r2 ∧ r2 < 1 ∧
        loadPuzzle puzzles puzzleSize difficulty r2 =
          Except.ok
            ((filteredPuzzles puzzles puzzleSize difficulty).getD i default)) := by
  constructor
  · intro p hok
    unfold loadPuzzle at hok
    by_cases hlen : (filteredPuzzles puzzles puzzleSize difficulty).length = 0
    · simp [hlen] at hok
    · have hpos : 0 < (filteredPuzzles puzzles puzzleSize difficulty).length :=
        Nat.pos_of_ne_zero hlen
      have hidx := selectIndex_lt r _ h1 hpos
      simp only [hlen, if_false, Except.ok.injEq] at hok
      have hmem : p ∈ filteredPuzzles puzzles puzzleSize difficulty := by
        rw [← hok, List.getD_eq_getElem _ _ hidx]
        exact List.getElem_mem hidx
      have hpred := List.of_mem_filter hmem
      simp only [Bool.and_eq_true, beq_iff_eq] at hpred
      exact ⟨hmem, hpred.1, hpred.2, hidx⟩
  · intro i hi
    obtain ⟨r2, hr0, hr1, hsel⟩ := selectIndex_surjective _ i hi
    refine ⟨r2, hr0, hr1, ?_⟩
    unfold loadPuzzle
    have hlen : ¬ (filteredPuzzles puzzles puzzleSize difficulty).length = 0 := by
      omega
    simp [hlen, hsel]

/-- Witness for C6: a one-record corpus, draw 0. -/

theorem loadPuzzle_matches_witness :
    (⟨7, [], [], "medium", some 50⟩ : PuzzleData) ∈
      filteredPuzzles [⟨7, [], [], "medium", some 50⟩] 7 "medium" ∧
    (⟨7, [], [], "medium", some 50⟩ : PuzzleData).size = 7 ∧
    (⟨7, [], [], "medium", some 50⟩ : PuzzleData).difficulty = "medium" := by
  have h := (loadPuzzle_matches [⟨7, [], [], "medium", some 50⟩] 7 "medium" 0
    (by norm_num) (by norm_num)).1 ⟨7, [], [], "medium", some 50⟩
    (by simp [loadPuzzle, filteredPuzzles, selectIndex])
  exact ⟨h.1, h.2.1, h.2.2.1⟩

/-- C5 counterexample: with an empty corpus the loader yields an error
outcome carrying the "No puzzles found" message — no fallback puzzle. -/

theorem loadPuzzle_empty_corpus_error :
    loadPuzzle ([] : List PuzzleData) 7 "medium" 0 =
      Except.error "No puzzles found for size 7 and difficulty medium" := by
  rfl

/-- C5 amended: whenever nothing matches, the loader reports the caught
"No puzzles found" error and returns no puzzle (it does not crash, and it
does not fall back to a default selection). -/

theorem loadPuzzle_no_match_is_error (puzzles : List PuzzleData)
    (puzzleSize : Nat) (difficulty : String) (r : ℚ)
    (hempty : filteredPuzzles puzzles puzzleSize difficulty = []) :
    loadPuzzle puzzles puzzleSize difficulty r =
      Except.error ("No puzzles found for size " ++ toString puzzleSize ++
        " and difficulty " ++ difficulty) := by
  unfold loadPuzzle
  simp [hempty]

/-- Witness for the amended C5 at an empty corpus. -/

theorem loadPuzzle_no_match_is_error_witness :
    loadPuzzle ([] : List PuzzleData) 4 "easy" 0 =
      Except.error ("No puzzles found for size " ++ toString (4 : Nat) ++
        " and difficulty " ++ "easy") :=
  loadPuzzle_no_match_is_error [] 4 "easy" 0 rfl

/-- The draw 0 always selects index 0. -/

lemma selectIndex_zero (n : Nat) : selectIndex 0 n = 0 := by
  simp [selectIndex]

/-! ### C3: scores returned for size-7 "medium" by the `part_013` loader -/

/-- C3 counterexample: a size-7 record with score 49 is returnable for
difficulty "medium", and 49 lies outside the claimed interval `[50, 52)`. -/

theorem loadPuzzleOps_medium7_counterexample :
    loadPuzzleOps [⟨7, [], [], "medium", some 49⟩] 7 "medium" 0 =
      Except.ok ⟨7, [], [], "medium", some 49⟩ ∧ ¬ ((50 : Int) ≤ 49) := by
  constructor
  · simp only [loadPuzzleOps, selectIndex_zero]
    rfl
  · decide

/-- C3 amended: every puzzle the `part_013` loader can return for size 7,
difficulty "medium" has a present `difficulty_operations` score inside
the closed interval `[49, 52]` of the size-7 bounds table. -/

theorem loadPuzzleOps_medium7_range (puzzles : List PuzzleData) (r : ℚ)
    (h1 : r < 1) (p : PuzzleData)
    (hok : loadPuzzleOps puzzles 7 "medium" r = Except.ok p) :
    ∃ d : Int, p.difficulty_operations = some d ∧ 49 ≤ d ∧ d ≤ 52 := by
  unfold loadPuzzleOps at hok
  by_cases hlen : (opsFilteredPuzzles puzzles 7 "medium").length = 0
  · simp [hlen] at hok
  · have hpos : 0 < (opsFilteredPuzzles puzzles 7 "medium").length :=
      Nat.pos_of_ne_zero hlen
    have hidx := selectIndex_lt r _ h1 hpos
    simp only [hlen, if_false, Except.ok.injEq] at hok
    have hmem : p ∈ opsFilteredPuzzles puzzles 7 "medium" := by
      rw [← hok, List.getD_eq_getElem _ _ hidx]
      exact List.getElem_mem hidx
    have hpred := List.of_mem_filter hmem
    unfold opsMatches at hpred
    rcases hops : p.difficulty_operations with _ | d
    · rw [hops] at hpred
      simp at hpred
    · rw [hops] at hpred
      have hb : getDifficultyBounds 7 "medium" = (49, 52) := rfl
      simp only [Bool.and_eq_true, scoreAccepted, hb, decide_eq_true_eq,
        Bool.and_eq_true] at hpred
      exact ⟨d, rfl, hpred.2⟩

/-- Witness for the amended C3 at a one-record corpus, draw 0. -/

theorem loadPuzzleOps_medium7_range_witness :
    ∃ d : Int,
      (⟨7, [], [], "medium", some 50⟩ : PuzzleData).difficulty_operations =
        some d ∧ 49 ≤ d ∧ d ≤ 52 :=
  loadPuzzleOps_medium7_range [⟨7, [], [], "medium", some 50⟩] 0
    (by norm_num) ⟨7, [], [], "medium", some 50⟩
    (by simp only [loadPuzzleOps, selectIndex_zero]; rfl)

/-- C4 counterexample: at size 7 the score 49 — the boundary shared by
"easy" `[47, 49]` and "medium" `[49, 52]` — is accepted by both bands'
filters, so the acceptance ranges are not disjoint half-open intervals. -/

theorem difficulty_bands_overlap_counterexample :
    scoreAccepted 7 "easy" 49 = true ∧ scoreAccepted 7 "medium" 49 = true ∧
    getDifficultyBounds 7 "easy" = (47, 49) ∧
    getDifficultyBounds 7 "medium" = (49, 52) := by
  refine ⟨rfl, rfl, rfl, rfl⟩

/-- C4 amended: for every size in `{4, 5, 6, 7}` the five bands accept
closed intervals `[p_k, p_k+1]`; two bands can only share an accepted
score if they are adjacent and the score is their common boundary, and
that boundary is accepted by both adjacent bands (never only the lower). -/

theorem difficulty_bands_closed_overlap (size : Nat)
    (hsize : size ∈ ([4, 5, 6, 7] : List Nat)) (i j : Fin 5) :
    (i.val < j.val → ∀ s : Int,
      scoreAccepted size (bandNames.getD i.val "") s = true →
      scoreAccepted size (bandNames.getD j.val "") s = true →
      j.val = i.val + 1 ∧
        s = (getDifficultyBounds size (bandNames.getD i.val "")).2) ∧
    (j.val = i.val + 1 →
      (getDifficultyBounds size (bandNames.getD i.val "")).2 =
        (getDifficultyBounds size (bandNames.getD j.val "")).1 ∧
      scoreAccepted size (bandNames.getD i.val "")
        ((getDifficultyBounds size (bandNames.getD i.val "")).2) = true ∧
      scoreAccepted size (bandNames.getD j.val "")
        ((getDifficultyBounds size (bandNames.getD i.val "")).2) = true) := by
  fin_cases hsize <;> fin_cases i <;> fin_cases j <;>
    refine ⟨fun hij s hsi hsj => ?_, fun hadj => ?_⟩ <;>
    simp_all [bandNames, scoreAccepted, getDifficultyBounds, sizeBoundsList,
      List.lookup] <;>
    omega

/-- Witness for the amended C4 at size 7, bands "easy" and "medium". -/

theorem difficulty_bands_closed_overlap_witness :
    (getDifficultyBounds 7 (bandNames.getD 1 "")).2 =
      (getDifficultyBounds 7 (bandNames.getD 2 "")).1 ∧
    scoreAccepted 7 (bandNames.getD 1 "")
      ((getDifficultyBounds 7 (bandNames.getD 1 "")).2) = true ∧
    scoreAccepted 7 (bandNames.getD 2 "")
      ((getDifficultyBounds 7 (bandNames.getD 1 "")).2) = true :=
  (difficulty_bands_closed_overlap 7 (by decide) 1 2).2 rfl

/-- C9: with nonempty history, undo followed by redo restores `gridValues`
and `pencilMarks`; and undo right after a recorded `handleInputChange`
edit restores the pre-edit `gridValues` and `pencilMarks`. -/

theorem undo_redo_roundtrip (s : GameState) :
    (s.history ≠ [] →
      (handleRedo (handleUndo s)).gridValues = s.gridValues ∧
      (handleRedo (handleUndo s)).pencilMarks = s.pencilMarks) ∧
    (∀ (size rowIndex colIndex : Nat) (value : String),
      value ≠ (s.gridValues.getD rowIndex []).getD colIndex "" →
      validGridEntry size value = true →
      (handleUndo (handleInputChange size s rowIndex colIndex value)).gridValues =
        s.gridValues ∧
      (handleUndo (handleInputChange size s rowIndex colIndex value)).pencilMarks =
        s.pencilMarks) := by
  constructor
  · intro hne
    obtain ⟨prev, hprev⟩ :=
      Option.isSome_iff_exists.mp (List.getLast?_isSome.mpr hne)
    have hu : handleUndo s =
        { gridValues := prev.1
          pencilMarks := prev.2
          history := s.history.dropLast
          redoStack := s.redoStack ++ [(s.gridValues, s.pencilMarks)] } := by
      unfold handleUndo
      rw [hprev]
    have hlast : (s.redoStack ++ [(s.gridValues, s.pencilMarks)]).getLast? =
        some (s.gridValues, s.pencilMarks) := List.getLast?_concat _
    rw [hu]
    unfold handleRedo
    rw [hlast]
    exact ⟨rfl, rfl⟩
  · intro size rowIndex colIndex value hdiff hvalid
    have hcond : (value != (s.gridValues.getD rowIndex []).getD colIndex "" &&
        validGridEntry size value) = true := by
      rw [Bool.and_eq_true]
      exact ⟨bne_iff_ne.mpr hdiff, hvalid⟩
    have hi : handleInputChange size s rowIndex colIndex value =
        { gridValues := updatedGridValues s.gridValues rowIndex colIndex value
          pencilMarks := updatedPencilMarks s.pencilMarks rowIndex colIndex value
          history := s.history ++ [(s.gridValues, s.pencilMarks)]
          redoStack := [] } := by
      unfold handleInputChange
      simp only [hcond, if_true]
    rw [hi]
    unfold handleUndo
    rw [List.getLast?_concat]
    exact ⟨rfl, rfl⟩

/-- Witness for C9 at a concrete one-cell game state. -/

theorem undo_redo_roundtrip_witness :
    ((handleRedo (handleUndo
        ⟨[["1"]], [[["2"]]], [([[""]], [[[]]])], []⟩)).gridValues = [["1"]] ∧
      (handleRedo (handleUndo
        ⟨[["1"]], [[["2"]]], [([[""]], [[[]]])], []⟩)).pencilMarks = [[["2"]]]) ∧
    ((handleUndo (handleInputChange 1
        ⟨[["1"]], [[["2"]]], [([[""]], [[[]]])], []⟩ 0 0 "")).gridValues =
        [["1"]] ∧
      (handleUndo (handleInputChange 1
        ⟨[["1"]], [[["2"]]], [([[""]], [[[]]])], []⟩ 0 0 "")).pencilMarks =
        [[["2"]]]) :=
  ⟨(undo_redo_roundtrip ⟨[["1"]], [[["2"]]], [([[""]], [[[]]])], []⟩).1
      (by decide),
   (undo_redo_roundtrip ⟨[["1"]], [[["2"]]], [([[""]], [[[]]])], []⟩).2
      1 0 0 "" (by decide) (by decide)⟩

/-- Splitting never produces the empty list of pieces. -/

lemma splitOnComma_ne_nil (cs : List Char) : splitOnComma cs ≠ [] := by
  cases cs with
  | nil => simp [splitOnComma]
  | cons c rest =>
    unfold splitOnComma
    by_cases hc : c = ','
    · simp [hc]
    · simp only [hc, if_false]
      cases splitOnComma rest with
      | nil => simp
      | cons s ss => simp

/-- Splitting a comma-free string yields that single piece. -/

lemma splitOnComma_no_comma (s : List Char) (h : ',' ∉ s) :
    splitOnComma s = [s] := by
  induction s with
  | nil => rfl
  | cons c rest ih =>
    have hc : ¬ c = ',' := fun hcc => h (by simp [hcc])
    have hrest : ',' ∉ rest := fun hr => h (List.mem_cons_of_mem c hr)
    unfold splitOnComma
    rw [if_neg hc, ih hrest]

/-- Splitting past a comma-free prefix peels it off whole. -/

lemma splitOnComma_append (s cs : List Char) (h : ',' ∉ s) :
    splitOnComma (s ++ ',' :: cs) = s :: splitOnComma cs := by
  induction s with
  | nil =>
    simp only [List.nil_append]
    rw [splitOnComma, if_pos rfl]
  | cons c rest ih =>
    have hc : ¬ c = ',' := fun hcc => h (by simp [hcc])
    have hrest : ',' ∉ rest := fun hr => h (List.mem_cons_of_mem c hr)
    simp only [List.cons_append]
    rw [splitOnComma, if_neg hc, ih hrest]

/-- Splitting inverts joining for comma-free marks, nonempty mark lists. -/

lemma splitOnComma_joinMarks (l : List (List Char)) (hne : l ≠ [])
    (h : ∀ s ∈ l, ',' ∉ s) : splitOnComma (joinMarks l) = l := by
  induction l with
  | nil => exact absurd rfl hne
  | cons s rest ih =>
    cases rest with
    | nil =>
      show splitOnComma (joinMarks [s]) = [s]
      unfold joinMarks
      exact splitOnComma_no_comma s (h s (by simp))
    | cons r rs =>
      have hjoin : joinMarks (s :: r :: rs) = s ++ ',' :: joinMarks (r :: rs) :=
        rfl
      rw [hjoin, splitOnComma_append s _ (h s (by simp))]
      rw [ih (by simp) (fun x hx => h x (List.mem_cons_of_mem s hx))]

/-- Deserializing one serialized cell recovers the cell when every mark
is nonempty and comma-free. -/

lemma deserializeCell_joinMarks (l : List (List Char))
    (h : ∀ s ∈ l, s ≠ [] ∧ ',' ∉ s) :
    deserializeCell (joinMarks l) = l := by
  cases l with
  | nil => rfl
  | cons s rest =>
    have hsplit : splitOnComma (joinMarks (s :: rest)) = s :: rest :=
      splitOnComma_joinMarks (s :: rest) (by simp) (fun x hx => (h x hx).2)
    have hne : joinMarks (s :: rest) ≠ [] := by
      intro hj
      have := hsplit
      rw [hj] at this
      have : ([] : List Char) :: [] = s :: rest := by
        simpa [splitOnComma] using this
      have hs : s = [] := by
        injection this with h1 h2
        exact h1.symm
      exact (h s (by simp)).1 hs
    unfold deserializeCell
    rw [if_neg hne, hsplit]
    exact List.filter_eq_self.mpr (fun a ha => by
      simpa using (h a ha).1)

/-- C10: deserializing the serialized pencil-mark matrix recovers the
original matrix whenever every mark is a nonempty comma-free string. -/

theorem deserialize_serialize_pencilMarks (pm : List (List (List (List Char))))
    (h : ∀ row ∈ pm, ∀ cell ∈ row, ∀ mark ∈ cell, mark ≠ [] ∧ ',' ∉ mark) :
    deserializePencilMarks (serializePencilMarks pm) = pm := by
  unfold deserializePencilMarks serializePencilMarks
  rw [List.map_map]
  conv_rhs => rw [← List.map_id pm]
  refine List.map_congr_left (fun row hrow => ?_)
  simp only [Function.comp_apply, List.map_map, id]
  conv_rhs => rw [← List.map_id row]
  refine List.map_congr_left (fun cell hcell => ?_)
  simp only [Function.comp_apply, id]
  exact deserializeCell_joinMarks cell (h row hrow cell hcell)

/-- Witness for C10 at a concrete two-cell matrix. -/

theorem deserialize_serialize_pencilMarks_witness :
    deserializePencilMarks (serializePencilMarks
      [[[[ 'a' ], [ 'b', 'c' ]], []], [[[ '1' ]]]]) =
      [[[[ 'a' ], [ 'b', 'c' ]], []], [[[ '1' ]]]] :=
  deserialize_serialize_pencilMarks
    [[[[ 'a' ], [ 'b', 'c' ]], []], [[[ '1' ]]]] (by decide)

lemma oneToN_length (size : Nat) : (oneToN size).length = size := by
  unfold oneToN
  rw [List.length_map, List.length_range]

lemma mem_oneToN (size : Nat) (x : Int) :
    x ∈ oneToN size ↔ 1 ≤ x ∧ x ≤ (size : Int) := by
  unfold oneToN
  simp only [List.mem_map, List.mem_range, Int.ofNat_eq_coe]
  constructor
  · rintro ⟨k, hk, rfl⟩
    omega
  · rintro ⟨h1, h2⟩
    refine ⟨(x - 1).toNat, by omega, by omega⟩

lemma oneToN_nodup (size : Nat) : (oneToN size).Nodup := by
  unfold oneToN
  refine List.Nodup.map ?_ (List.nodup_range size)
  intro a b hab
  simp only [Int.ofNat_eq_coe] at hab
  omega

/-- A nodup list of `size` values in `1..size` is a permutation of them. -/

lemma perm_oneToN_of (size : Nat) (l : List Int) (hlen : l.length = size)
    (hnd : l.Nodup) (hmem : ∀ x ∈ l, 1 ≤ x ∧ x ≤ (size : Int)) :
    l.Perm (oneToN size) := by
  have hsub : l ⊆ oneToN size := fun x hx => (mem_oneToN size x).mpr (hmem x hx)
  exact (hnd.subperm hsub).perm_of_length_le (by rw [oneToN_length, hlen])

/-- The set size equals the list length exactly for duplicate-free lists. -/

lemma jsSetSize_eq_length_iff (l : List Int) :
    jsSetSize l = l.length ↔ l.Nodup := by
  unfold jsSetSize
  constructor
  · intro h
    rw [← (List.dedup_sublist l).eq_of_length h]
    exact List.nodup_dedup l
  · intro h
    rw [List.dedup_eq_self.mpr h]

/-- Successful `Option`-monadic `mapM` determines length and entries. -/

lemma mapM_option_eq_some {α β : Type} [Inhabited α] [Inhabited β]
    (f : α → Option β) :
    ∀ (xs : List α) (ys : List β), xs.mapM f = some ys →
      ys.length = xs.length ∧
      ∀ i, i < xs.length → f (xs.getD i default) = some (ys.getD i default) := by
  intro xs
  induction xs with
  | nil =>
    intro ys h
    simp only [List.mapM_nil, pure, Option.some.injEq] at h
    subst h
    exact ⟨rfl, fun i hi => absurd hi (by simp)⟩
  | cons x xs ih =>
    intro ys h
    rw [List.mapM_cons] at h
    cases hfx : f x with
    | none =>
      rw [hfx] at h
      simp at h
    | some y =>
      rw [hfx] at h
      cases hm : xs.mapM f with
      | none =>
        rw [hm] at h
        simp at h
      | some ys2 =>
        rw [hm] at h
        simp only [Option.bind_eq_bind, Option.some_bind, pure,
          Option.some.injEq] at h
        subst h
        obtain ⟨hlen, hget⟩ := ih ys2 hm
        refine ⟨by simp [hlen], ?_⟩
        intro i hi
        cases i with
        | zero => simpa using hfx
        | succ n =>
          simp only [List.getD_cons_succ]
          exact hget n (by simpa using hi)

lemma range_getD (n i : Nat) (h : i < n) :
    (List.range n).getD i default = i := by
  rw [List.getD_eq_getElem _ _ (by simpa using h)]
  simp

/-- Decomposition of a successful `parseGrid`: the number grid is
`size × size` and each entry is the parse of the matching cell. -/

lemma parseGrid_some (g : List (List String)) (size : Nat)
    (ng : List (List Int)) (h : parseGrid g size = some ng) :
    ng.length = size ∧
    (∀ r, r < size → (ng.getD r []).length = size) ∧
    (∀ r c, r < size → c < size →
      parseCell ((g.getD r []).getD c "") size = some (entry ng r c)) := by
  unfold parseGrid at h
  obtain ⟨hlen, hrow⟩ := mapM_option_eq_some _ _ _ h
  rw [List.length_range] at hlen
  have hr : ∀ r, r < size →
      (List.range size).mapM (fun c => parseCell ((g.getD r []).getD c "") size) =
        some (ng.getD r []) := by
    intro r hrlt
    have hx := hrow r (by simpa using hrlt)
    rwa [range_getD size r hrlt] at hx
  refine ⟨hlen, ?_, ?_⟩
  · intro r hrlt
    obtain ⟨hlen2, -⟩ := mapM_option_eq_some _ _ _ (hr r hrlt)
    rwa [List.length_range] at hlen2
  · intro r c hrlt hclt
    obtain ⟨-, hcol⟩ := mapM_option_eq_some _ _ _ (hr r hrlt)
    have hx := hcol c (by simpa using hclt)
    rwa [range_getD size c hclt] at hx

lemma jsParseInt_empty : jsParseInt "" = none := rfl

/-- `parseCell` succeeds exactly on strings whose `parseInt` value lies in
`1..size`. -/

lemma parseCell_eq_some (s : String) (size : Nat) (n : Int) :
    parseCell s size = some n ↔
      jsParseInt s = some n ∧ 1 ≤ n ∧ n ≤ (size : Int) := by
  unfold parseCell
  by_cases hs : s = ""
  · subst hs
    simp [jsParseInt_empty]
  · rw [if_neg (by simpa using hs)]
    cases hj : jsParseInt s with
    | none => simp
    | some m =>
      show (if m < 1 ∨ m > (size : Int) then none else some m) = some n ↔
        some m = some n ∧ 1 ≤ n ∧ n ≤ (size : Int)
      by_cases hb : m < 1 ∨ m > (size : Int)
      · rw [if_pos hb]
        constructor
        · intro hx
          cases hx
        · rintro ⟨hmn, hn1, hn2⟩
          injection hmn with hmn
          subst hmn
          rcases hb with h | h <;> omega
      · rw [if_neg hb]
        push_neg at hb
        constructor
        · intro hx
          injection hx with hx
          subst hx
          exact ⟨rfl, by omega, by omega⟩
        · rintro ⟨hmn, -, -⟩
          exact hmn

/-- C1: `checkWinCondition(grid, puzzle)` is true exactly when every cell
`parseInt`s to an integer in `1..size`, every row and column of the parsed
number grid is a permutation of `1..size`, and every cage's values
satisfy `validateCageConstraint`. -/

theorem checkWinCondition_iff (g : List (List String)) (pd : PuzzleDefinition) :
    checkWinCondition g pd = true ↔
      ((∀ r c, r < pd.size → c < pd.size → ∃ n : Int,
          jsParseInt ((g.getD r []).getD c "") = some n ∧
          1 ≤ n ∧ n ≤ (pd.size : Int)) ∧
        ∃ ng, parseGrid g pd.size = some ng ∧
          (∀ i, i < pd.size →
            (rowVals ng pd.size i).Perm (oneToN pd.size) ∧
            (colVals ng pd.size i).Perm (oneToN pd.size)) ∧
          (∀ cage ∈ pd.cages,
            validateCageConstraint cage (cageValues cage ng pd.size) = true)) := by
  unfold checkWinCondition
  cases hpg : parseGrid g pd.size with
  | none =>
    constructor
    · intro h
      cases h
    · rintro ⟨-, ng, hng, -, -⟩
      cases hng
  | some ng =>
    obtain ⟨hlen, hrowlen, hcell⟩ := parseGrid_some g pd.size ng hpg
    have hentry : ∀ r c, r < pd.size → c < pd.size →
        1 ≤ entry ng r c ∧ entry ng r c ≤ (pd.size : Int) :=
      fun r c hr hc => ((parseCell_eq_some _ _ _).mp (hcell r c hr hc)).2
    constructor
    · intro h
      simp only [Bool.and_eq_true, List.all_eq_true] at h
      obtain ⟨hlatin, hcages⟩ := h
      constructor
      · intro r c hr hc
        exact ⟨entry ng r c, (parseCell_eq_some _ _ _).mp (hcell r c hr hc)⟩
      · refine ⟨ng, rfl, ?_, ?_⟩
        · intro i hi
          have hlat := hlatin i (List.mem_range.mpr hi)
          simp only [Bool.and_eq_true, beq_iff_eq] at hlat
          obtain ⟨hrowset, hcolset⟩ := hlat
          have hrlen : (rowVals ng pd.size i).length = pd.size := by
            unfold rowVals
            rw [List.length_map, List.length_range]
          have hclen : (colVals ng pd.size i).length = pd.size := by
            unfold colVals
            rw [List.length_map, List.length_range]
          constructor
          · refine perm_oneToN_of pd.size _ hrlen
              ((jsSetSize_eq_length_iff _).mp (by rw [hrowset, hrlen])) ?_
            intro x hx
            unfold rowVals at hx
            simp only [List.mem_map, List.mem_range] at hx
            obtain ⟨j, hj, rfl⟩ := hx
            exact hentry i j hi hj
          · refine perm_oneToN_of pd.size _ hclen
              ((jsSetSize_eq_length_iff _).mp (by rw [hcolset, hclen])) ?_
            intro x hx
            unfold colVals at hx
            simp only [List.mem_map, List.mem_range] at hx
            obtain ⟨j, hj, rfl⟩ := hx
            exact hentry j i hj hi
        · intro cage hcage
          exact hcages cage hcage
    · rintro ⟨-, ng2, hng2, hlatin, hcages⟩
      injection hng2 with hng2
      subst hng2
      simp only [Bool.and_eq_true, List.all_eq_true]
      constructor
      · intro i hi
        obtain ⟨hrp, hcp⟩ := hlatin i (List.mem_range.mp hi)
        have hrlen : (rowVals ng pd.size i).length = pd.size := by
          unfold rowVals
          rw [List.length_map, List.length_range]
        have hclen : (colVals ng pd.size i).length = pd.size := by
          unfold colVals
          rw [List.length_map, List.length_range]
        have hrnd : (rowVals ng pd.size i).Nodup :=
          hrp.nodup_iff.mpr (oneToN_nodup pd.size)
        have hcnd : (colVals ng pd.size i).Nodup :=
          hcp.nodup_iff.mpr (oneToN_nodup pd.size)
        simp only [Bool.and_eq_true, beq_iff_eq]
        exact ⟨by rw [(jsSetSize_eq_length_iff _).mpr hrnd, hrlen],
               by rw [(jsSetSize_eq_length_iff _).mpr hcnd, hclen]⟩
      · intro cage hcage
        exact hcages cage hcage

/-- Witness for C1: a solved 2×2 grid with two `+` cages. -/

theorem checkWinCondition_iff_witness :
    checkWinCondition [["1", "2"], ["2", "1"]]
      ⟨2, [⟨3, "+", [0, 1]⟩, ⟨3, "+", [2, 3]⟩]⟩ = true :=
  (checkWinCondition_iff [["1", "2"], ["2", "1"]]
      ⟨2, [⟨3, "+", [0, 1]⟩, ⟨3, "+", [2, 3]⟩]⟩).mpr
    ⟨by
      intro r c hr hc
      interval_cases r <;> interval_cases c <;>
        first
          | exact ⟨1, by decide, by decide, by decide⟩
          | exact ⟨2, by decide, by decide, by decide⟩,
     [[1, 2], [2, 1]], by decide, by decide, by decide⟩

end Arithmatrix
